import Mathlib

/-!
Verification development for the PIX "troco" (change) payout backend.

The definitions below are a shallow embedding of the repository's core
business logic:

- the SubAccount wallet model (src/src/models/SubAccount.js): the canMakePix
  limit check and the debitAmount / creditAmount mutations;
- the PixTransaction model (src/src/models/PixTransaction.js): the status
  enum, the markAsProcessing / markAsCompleted / markAsFailed /
  markAsCancelled mutations, and canRetry;
- the PIX key classifier of the gateway client
  (src/src/services/efiBankService.js): detectPixKeyType and validatePixKey;
- the route handlers driving the transaction lifecycle (the /process,
  /status, /cancel and /retry routes of the PIX router, together with the
  add-balance admin route): each route is embedded as a pure function from a
  system state and an oracle describing the gateway outcome to the next
  system state, the list of statuses it persists and its HTTP-level result.

Monetary values are JavaScript numbers in the source; they are embedded as
rationals, so that additions, subtractions and comparisons are exact.
-/

namespace Troco

/-- Wallet state of a merchant sub-account, after the fields of the Mongoose
schema in src/src/models/SubAccount.js that the business logic reads and
writes (balance, maxPixAmount, dailyPixLimit, dailyPixUsed, dailyPixCount,
isActive). -/
structure SubAccount where
  balance : ℚ
  maxPixAmount : ℚ
  dailyPixLimit : ℚ
  dailyPixUsed : ℚ
  dailyPixCount : ℕ
  isActive : Bool
deriving Repr, DecidableEq

/-- Result of the canMakePix limit check: the source returns an object with
a boolean can field and a reason string. -/
structure PixCheck where
  can : Bool
  reason : String
deriving Repr, DecidableEq

/-- The canMakePix method of SubAccount.js (lines 78-85): inactive, then
per-transaction cap, then balance, then daily limit; first failing check
wins. -/
def canMakePix (s : SubAccount) (amount : ℚ) : PixCheck :=
  if !s.isActive then ⟨false, "Subconta inativa"⟩
  else if amount > s.maxPixAmount then ⟨false, "Valor excede limite máximo por PIX"⟩
  else if amount > s.balance then ⟨false, "Saldo insuficiente"⟩
  else if s.dailyPixUsed + amount > s.dailyPixLimit then ⟨false, "Excede limite diário"⟩
  else ⟨true, "OK"⟩

/-- The debitAmount method of SubAccount.js (lines 88-99): throws on a
non-positive amount, re-runs canMakePix and throws with its reason on
denial, otherwise decrements the balance and bumps the daily counters.
Throwing is embedded as Except.error. -/
def debitAmount (s : SubAccount) (amount : ℚ) : Except String SubAccount :=
  if amount ≤ 0 then .error "Valor deve ser maior que zero"
  else
    let check := canMakePix s amount
    if !check.can then .error check.reason
    else .ok { s with
      balance := s.balance - amount
      dailyPixUsed := s.dailyPixUsed + amount
      dailyPixCount := s.dailyPixCount + 1 }

/-- The creditAmount method of SubAccount.js (lines 102-107): throws on a
non-positive amount, otherwise increments the balance. -/
def creditAmount (s : SubAccount) (amount : ℚ) : Except String SubAccount :=
  if amount ≤ 0 then .error "Valor deve ser maior que zero"
  else .ok { s with balance := s.balance + amount }

/-- The status enum of PixTransaction.js. -/
inductive TxStatus where
  | pending
  | processing
  | completed
  | failed
  | cancelled
deriving Repr, DecidableEq

/-- The PIX key type enum of PixTransaction.js / efiBankService.js. -/
inductive PixKeyType where
  | cpf
  | cnpj
  | email
  | phone
  | random
deriving Repr, DecidableEq

/-- One payout attempt, after the fields of the Mongoose schema in
src/src/models/PixTransaction.js that the lifecycle logic reads and writes. -/
structure PixTransaction where
  pixKey : String
  pixKeyType : PixKeyType
  amount : ℚ
  status : TxStatus
  efiTransactionId : Option String
  errorMessage : Option String
  retryCount : ℕ
deriving Repr, DecidableEq

/-- markAsProcessing (PixTransaction.js lines 95-98). -/
def markAsProcessing (t : PixTransaction) : PixTransaction :=
  { t with status := .processing }

/-- markAsCompleted (PixTransaction.js lines 101-107): also records the
gateway transaction id. -/
def markAsCompleted (t : PixTransaction) (efiId : String) : PixTransaction :=
  { t with status := .completed, efiTransactionId := some efiId }

/-- markAsFailed (PixTransaction.js lines 110-115): records the error
message and increments the retry count. -/
def markAsFailed (t : PixTransaction) (msg : String) : PixTransaction :=
  { t with status := .failed, errorMessage := some msg, retryCount := t.retryCount + 1 }

/-- markAsCancelled (PixTransaction.js lines 118-121). -/
def markAsCancelled (t : PixTransaction) : PixTransaction :=
  { t with status := .cancelled }

/-- canRetry (PixTransaction.js lines 124-126): failed and fewer than 3
attempts. -/
def canRetry (t : PixTransaction) : Bool :=
  t.status == .failed && t.retryCount < 3

/-! ## PIX key classifier (efiBankService.js lines 204-234)

The five anchored regular expressions of validatePixKey / detectPixKeyType
all describe either a fixed sequence of character classes (cpf, cnpj, phone,
random) or, for email, a split on the single at-sign. They are embedded as
executable predicates on the character list of the key. -/

/-- Character class of a digit, as \d in the source regexes. -/
def isDigitChar (c : Char) : Bool := c.isDigit

/-- Literal dot in the cpf / cnpj regexes. -/
def isDotChar (c : Char) : Bool := c == '.'

/-- Literal dash in the cpf / cnpj regexes. -/
def isDashChar (c : Char) : Bool := c == '-'

/-- Literal slash in the cnpj regex. -/
def isSlashChar (c : Char) : Bool := c == '/'

/-- Literal plus sign in the phone regex. -/
def isPlusChar (c : Char) : Bool := c == '+'

/-- Literal five in the phone regex prefix +55. -/
def isFiveChar (c : Char) : Bool := c == '5'

/-- Character class [a-zA-Z0-9] of the random-token regex. -/
def isAlnumChar (c : Char) : Bool := c.isAlphanum

/-- Character class [^\s@] of the email regex: no whitespace, no at-sign. -/
def emailChar (c : Char) : Bool := !c.isWhitespace && c != '@'

/-- A fixed sequence of character classes matches a character list when the
lengths agree and every character satisfies its class, exactly as an
anchored regex with no quantifier choice. -/
def matchChars : List (Char → Bool) → List Char → Bool
  | [], [] => true
  | p :: ps, c :: cs => p c && matchChars ps cs
  | _, _ => false

/-- The cpf regex \d\x7b3\x7d\.\d\x7b3\x7d\.\d\x7b3\x7d-\d\x7b2\x7d as a
character-class sequence. -/
def cpfSpec : List (Char → Bool) :=
  [isDigitChar, isDigitChar, isDigitChar, isDotChar,
   isDigitChar, isDigitChar, isDigitChar, isDotChar,
   isDigitChar, isDigitChar, isDigitChar, isDashChar,
   isDigitChar, isDigitChar]

/-- The cnpj regex \d\x7b2\x7d\.\d\x7b3\x7d\.\d\x7b3\x7d/\d\x7b4\x7d-\d\x7b2\x7d
as a character-class sequence. -/
def cnpjSpec : List (Char → Bool) :=
  [isDigitChar, isDigitChar, isDotChar,
   isDigitChar, isDigitChar, isDigitChar, isDotChar,
   isDigitChar, isDigitChar, isDigitChar, isSlashChar,
   isDigitChar, isDigitChar, isDigitChar, isDigitChar, isDashChar,
   isDigitChar, isDigitChar]

/-- The phone regex \+55\d\x7b2\x7d\d\x7b5\x7d\d\x7b4\x7d as a
character-class sequence: a plus, two fives, eleven digits. -/
def phoneSpec : List (Char → Bool) :=
  [isPlusChar, isFiveChar, isFiveChar] ++ List.replicate 11 isDigitChar

/-- The random-token regex [a-zA-Z0-9]\x7b32\x7d as a character-class
sequence: 32 alphanumerics. -/
def randomSpec : List (Char → Bool) :=
  List.replicate 32 isAlnumChar

/-- The cpf pattern test on a key string. -/
def cpfFormat (k : String) : Bool := matchChars cpfSpec k.data

/-- The cnpj pattern test on a key string. -/
def cnpjFormat (k : String) : Bool := matchChars cnpjSpec k.data

/-- The phone pattern test on a key string. -/
def phoneFormat (k : String) : Bool := matchChars phoneSpec k.data

/-- The random-token pattern test on a key string. -/
def randomFormat (k : String) : Bool := matchChars randomSpec k.data

/-- The domain part [^\s@]+\.[^\s@]+ of the email regex needs a dot that is
neither its first nor its last character (the class on either side of the
dot may itself contain dots, so a match exists exactly when some interior
dot does). -/
def hasInteriorDot (d : List Char) : Bool :=
  ((d.drop 1).dropLast).contains '.'

/-- The email regex [^\s@]+@[^\s@]+\.[^\s@]+ on a character list: a
non-empty local part without whitespace or at-signs, a single at-sign, and
a domain without whitespace or at-signs containing an interior dot. The
greedy [^\s@]+ before the at-sign stops exactly at the first at-sign of
the string. -/
def emailPattern (l : List Char) : Bool :=
  let localPart := l.takeWhile (fun c => c != '@')
  let rest := l.drop localPart.length
  rest.head? == some '@' &&
  !localPart.isEmpty && localPart.all emailChar &&
  (rest.drop 1).all emailChar && hasInteriorDot (rest.drop 1)

/-- The email pattern test on a key string. -/
def emailFormat (k : String) : Bool := emailPattern k.data

/-- detectPixKeyType (efiBankService.js lines 226-234): tries cpf, cnpj,
email, phone, random in that order and returns the first matching type, or
none when no pattern matches. -/
def detectPixKeyType (pixKey : String) : Option PixKeyType :=
  if cpfFormat pixKey then some .cpf
  else if cnpjFormat pixKey then some .cnpj
  else if emailFormat pixKey then some .email
  else if phoneFormat pixKey then some .phone
  else if randomFormat pixKey then some .random
  else none

/-- Result object of validatePixKey. -/
structure KeyValidation where
  valid : Bool
  error : Option String
deriving Repr, DecidableEq

/-- validatePixKey (efiBankService.js lines 205-223): re-checks the pattern
of an asserted key type. -/
def validatePixKey (pixKey : String) (pixKeyType : PixKeyType) : KeyValidation :=
  let ok :=
    match pixKeyType with
    | .cpf => cpfFormat pixKey
    | .cnpj => cnpjFormat pixKey
    | .email => emailFormat pixKey
    | .phone => phoneFormat pixKey
    | .random => randomFormat pixKey
  if ok then ⟨true, none⟩ else ⟨false, some "Formato da chave PIX inválido"⟩

/-! ### Classifier lemmas

The five patterns are pairwise disjoint in the direction the first-match
chain of detectPixKeyType needs: every later pattern forces a character
that an earlier pattern forbids. -/

/-- Every character of a list matched by a character-class sequence
satisfies one of the classes. -/
lemma matchChars_all (ps : List (Char → Bool)) (cs : List Char)
    (h : matchChars ps cs = true) : ∀ c ∈ cs, ∃ p ∈ ps, p c = true := by
  induction ps generalizing cs with
  | nil =>
    cases cs with
    | nil => intro c hc; cases hc
    | cons c cs => simp [matchChars] at h
  | cons p ps ih =>
    cases cs with
    | nil => simp [matchChars] at h
    | cons c cs =>
      simp only [matchChars, Bool.and_eq_true] at h
      intro d hd
      rcases List.mem_cons.mp hd with rfl | hd'
      · exact ⟨p, List.mem_cons_self _ _, h.1⟩
      · rcases ih cs h.2 d hd' with ⟨q, hq, hqd⟩
        exact ⟨q, List.mem_cons_of_mem _ hq, hqd⟩

/-- A character-class sequence containing a class forces a character
satisfying that class into any matched list. -/
lemma matchChars_exists (ps₁ ps₂ : List (Char → Bool)) (p : Char → Bool)
    (cs : List Char) (h : matchChars (ps₁ ++ p :: ps₂) cs = true) :
    ∃ c ∈ cs, p c = true := by
  induction ps₁ generalizing cs with
  | nil =>
    cases cs with
    | nil => simp [matchChars] at h
    | cons c cs =>
      simp only [List.nil_append, matchChars, Bool.and_eq_true] at h
      exact ⟨c, List.mem_cons_self _ _, h.1⟩
  | cons q qs ih =>
    cases cs with
    | nil => simp [matchChars] at h
    | cons c cs =>
      simp only [List.cons_append, matchChars, Bool.and_eq_true] at h
      rcases ih cs h.2 with ⟨d, hd, hpd⟩
      exact ⟨d, List.mem_cons_of_mem _ hd, hpd⟩

/-- Characters of a cpf match are digits, dots or dashes. -/
lemma cpf_chars (cs : List Char) (h : matchChars cpfSpec cs = true) :
    ∀ c ∈ cs, c.isDigit = true ∨ c = '.' ∨ c = '-' := by
  intro c hc
  rcases matchChars_all cpfSpec cs h c hc with ⟨p, hp, hpc⟩
  simp only [cpfSpec, List.mem_cons, List.not_mem_nil, or_false] at hp
  rcases hp with rfl|rfl|rfl|rfl|rfl|rfl|rfl|rfl|rfl|rfl|rfl|rfl|rfl|rfl
  all_goals simp only [isDigitChar, isDotChar, isDashChar, beq_iff_eq] at hpc
  all_goals tauto

/-- Characters of a cnpj match are digits, dots, slashes or dashes. -/
lemma cnpj_chars (cs : List Char) (h : matchChars cnpjSpec cs = true) :
    ∀ c ∈ cs, c.isDigit = true ∨ c = '.' ∨ c = '/' ∨ c = '-' := by
  intro c hc
  rcases matchChars_all cnpjSpec cs h c hc with ⟨p, hp, hpc⟩
  simp only [cnpjSpec, List.mem_cons, List.not_mem_nil, or_false] at hp
  rcases hp with rfl|rfl|rfl|rfl|rfl|rfl|rfl|rfl|rfl|rfl|rfl|rfl|rfl|rfl|rfl|rfl|rfl|rfl
  all_goals simp only [isDigitChar, isDotChar, isSlashChar, isDashChar, beq_iff_eq] at hpc
  all_goals tauto

/-- Characters of a phone match are digits or the plus sign. -/
lemma phone_chars (cs : List Char) (h : matchChars phoneSpec cs = true) :
    ∀ c ∈ cs, c.isDigit = true ∨ c = '+' := by
  intro c hc
  rcases matchChars_all phoneSpec cs h c hc with ⟨p, hp, hpc⟩
  rcases List.mem_append.mp hp with hp' | hp'
  · simp only [List.mem_cons, List.not_mem_nil, or_false] at hp'
    rcases hp' with rfl|rfl|rfl
    · exact Or.inr (by simpa [isPlusChar] using hpc)
    · refine Or.inl ?_
      have : c = '5' := by simpa [isFiveChar] using hpc
      subst this; decide
    · refine Or.inl ?_
      have : c = '5' := by simpa [isFiveChar] using hpc
      subst this; decide
  · have : p = isDigitChar := List.eq_of_mem_replicate hp'
    subst this
    exact Or.inl (by simpa [isDigitChar] using hpc)

/-- Characters of a random-token match are alphanumeric. -/
lemma random_chars (cs : List Char) (h : matchChars randomSpec cs = true) :
    ∀ c ∈ cs, c.isAlphanum = true := by
  intro c hc
  rcases matchChars_all randomSpec cs h c hc with ⟨p, hp, hpc⟩
  have : p = isAlnumChar := List.eq_of_mem_replicate hp
  subst this
  simpa [isAlnumChar] using hpc

/-- A cpf match contains a dot. -/
lemma cpf_has_dot (cs : List Char) (h : matchChars cpfSpec cs = true) :
    '.' ∈ cs := by
  have h' : matchChars ([isDigitChar, isDigitChar, isDigitChar] ++ isDotChar ::
      [isDigitChar, isDigitChar, isDigitChar, isDotChar, isDigitChar, isDigitChar,
       isDigitChar, isDashChar, isDigitChar, isDigitChar]) cs = true := h
  rcases matchChars_exists _ _ _ _ h' with ⟨c, hc, hdot⟩
  have : c = '.' := by simpa [isDotChar] using hdot
  subst this; exact hc

/-- A cnpj match contains a dot. -/
lemma cnpj_has_dot (cs : List Char) (h : matchChars cnpjSpec cs = true) :
    '.' ∈ cs := by
  have h' : matchChars ([isDigitChar, isDigitChar] ++ isDotChar ::
      [isDigitChar, isDigitChar, isDigitChar, isDotChar, isDigitChar, isDigitChar,
       isDigitChar, isSlashChar, isDigitChar, isDigitChar, isDigitChar, isDigitChar,
       isDashChar, isDigitChar, isDigitChar]) cs = true := h
  rcases matchChars_exists _ _ _ _ h' with ⟨c, hc, hdot⟩
  have : c = '.' := by simpa [isDotChar] using hdot
  subst this; exact hc

/-- A cnpj match contains a slash. -/
lemma cnpj_has_slash (cs : List Char) (h : matchChars cnpjSpec cs = true) :
    '/' ∈ cs := by
  have h' : matchChars ([isDigitChar, isDigitChar, isDotChar, isDigitChar,
      isDigitChar, isDigitChar, isDotChar, isDigitChar, isDigitChar, isDigitChar] ++
      isSlashChar :: [isDigitChar, isDigitChar, isDigitChar, isDigitChar,
      isDashChar, isDigitChar, isDigitChar]) cs = true := h
  rcases matchChars_exists _ _ _ _ h' with ⟨c, hc, hs⟩
  have : c = '/' := by simpa [isSlashChar] using hs
  subst this; exact hc

/-- A phone match contains a plus sign. -/
lemma phone_has_plus (cs : List Char) (h : matchChars phoneSpec cs = true) :
    '+' ∈ cs := by
  have h' : matchChars ([] ++ isPlusChar ::
      ([isFiveChar, isFiveChar] ++ List.replicate 11 isDigitChar)) cs = true := h
  rcases matchChars_exists _ _ _ _ h' with ⟨c, hc, hp⟩
  have : c = '+' := by simpa [isPlusChar] using hp
  subst this; exact hc

/-- An email match contains an at-sign. -/
lemma email_has_at (cs : List Char) (h : emailPattern cs = true) : '@' ∈ cs := by
  simp only [emailPattern, Bool.and_eq_true, beq_iff_eq] at h
  have h1 := h.1.1.1.1
  rcases hd : cs.drop (cs.takeWhile (fun c => c != '@')).length with _ | ⟨c, rest⟩
  · rw [hd] at h1; cases h1
  · rw [hd] at h1
    have hc : c = '@' := by simpa using h1
    subst hc
    exact List.drop_subset _ cs (hd ▸ List.mem_cons_self _ _)

/-- A key containing a slash cannot match the cpf pattern. -/
lemma cpf_false_of_slash (cs : List Char) (hs : '/' ∈ cs) :
    matchChars cpfSpec cs = false := by
  cases hb : matchChars cpfSpec cs with
  | false => rfl
  | true =>
    exfalso
    rcases cpf_chars cs hb '/' hs with h1|h1|h1 <;> revert h1 <;> decide

/-- A key containing an at-sign cannot match the cpf pattern. -/
lemma cpf_false_of_at (cs : List Char) (hs : '@' ∈ cs) :
    matchChars cpfSpec cs = false := by
  cases hb : matchChars cpfSpec cs with
  | false => rfl
  | true =>
    exfalso
    rcases cpf_chars cs hb '@' hs with h1|h1|h1 <;> revert h1 <;> decide

/-- A key containing an at-sign cannot match the cnpj pattern. -/
lemma cnpj_false_of_at (cs : List Char) (hs : '@' ∈ cs) :
    matchChars cnpjSpec cs = false := by
  cases hb : matchChars cnpjSpec cs with
  | false => rfl
  | true =>
    exfalso
    rcases cnpj_chars cs hb '@' hs with h1|h1|h1|h1 <;> revert h1 <;> decide

/-- A phone match contains neither dot nor at-sign, so it matches neither
cpf nor cnpj nor email. -/
lemma phone_excludes (cs : List Char) (h : matchChars phoneSpec cs = true) :
    matchChars cpfSpec cs = false ∧ matchChars cnpjSpec cs = false ∧
    emailPattern cs = false := by
  refine ⟨?_, ?_, ?_⟩
  · cases hb : matchChars cpfSpec cs with
    | false => rfl
    | true =>
      exfalso
      rcases phone_chars cs h '.' (cpf_has_dot cs hb) with h1|h1 <;> revert h1 <;> decide
  · cases hb : matchChars cnpjSpec cs with
    | false => rfl
    | true =>
      exfalso
      rcases phone_chars cs h '.' (cnpj_has_dot cs hb) with h1|h1 <;> revert h1 <;> decide
  · cases hb : emailPattern cs with
    | false => rfl
    | true =>
      exfalso
      rcases phone_chars cs h '@' (email_has_at cs hb) with h1|h1 <;> revert h1 <;> decide

/-- A random-token match is all alphanumeric, so it matches none of the
four earlier patterns. -/
lemma random_excludes (cs : List Char) (h : matchChars randomSpec cs = true) :
    matchChars cpfSpec cs = false ∧ matchChars cnpjSpec cs = false ∧
    emailPattern cs = false ∧ matchChars phoneSpec cs = false := by
  refine ⟨?_, ?_, ?_, ?_⟩
  · cases hb : matchChars cpfSpec cs with
    | false => rfl
    | true =>
      exfalso
      have := random_chars cs h '.' (cpf_has_dot cs hb)
      revert this; decide
  · cases hb : matchChars cnpjSpec cs with
    | false => rfl
    | true =>
      exfalso
      have := random_chars cs h '.' (cnpj_has_dot cs hb)
      revert this; decide
  · cases hb : emailPattern cs with
    | false => rfl
    | true =>
      exfalso
      have := random_chars cs h '@' (email_has_at cs hb)
      revert this; decide
  · cases hb : matchChars phoneSpec cs with
    | false => rfl
    | true =>
      exfalso
      have := random_chars cs h '+' (phone_has_plus cs hb)
      revert this; decide

/-- C9: the PIX key classifier detectPixKeyType is a pure total function
trying the five structural patterns in the fixed order cpf, cnpj, email,
phone, random and returning the first match or none; every string matching
a pattern classifies to that pattern's type (round-trip), and a classified
key re-validates under validatePixKey for its detected type. -/
theorem detectPixKeyType_first_match_round_trip (k : String) :
    (cpfFormat k = true → detectPixKeyType k = some .cpf) ∧
    (cnpjFormat k = true → detectPixKeyType k = some .cnpj) ∧
    (emailFormat k = true → detectPixKeyType k = some .email) ∧
    (phoneFormat k = true → detectPixKeyType k = some .phone) ∧
    (randomFormat k = true → detectPixKeyType k = some .random) ∧
    (cpfFormat k = false → cnpjFormat k = false → emailFormat k = false →
      phoneFormat k = false → randomFormat k = false → detectPixKeyType k = none) ∧
    (∀ t : PixKeyType, detectPixKeyType k = some t → (validatePixKey k t).valid = true) := by
  refine ⟨?_, ?_, ?_, ?_, ?_, ?_, ?_⟩
  · intro h
    simp [detectPixKeyType, h]
  · intro h
    have h1 : cpfFormat k = false := cpf_false_of_slash k.data (cnpj_has_slash k.data h)
    simp [detectPixKeyType, h, h1]
  · intro h
    have hat : '@' ∈ k.data := email_has_at k.data h
    have h1 : cpfFormat k = false := cpf_false_of_at k.data hat
    have h2 : cnpjFormat k = false := cnpj_false_of_at k.data hat
    simp [detectPixKeyType, h, h1, h2]
  · intro h
    obtain ⟨h1, h2, h3⟩ := phone_excludes k.data h
    have h1' : cpfFormat k = false := h1
    have h2' : cnpjFormat k = false := h2
    have h3' : emailFormat k = false := h3
    simp [detectPixKeyType, h, h1', h2', h3']
  · intro h
    obtain ⟨h1, h2, h3, h4⟩ := random_excludes k.data h
    have h1' : cpfFormat k = false := h1
    have h2' : cnpjFormat k = false := h2
    have h3' : emailFormat k = false := h3
    have h4' : phoneFormat k = false := h4
    simp [detectPixKeyType, h, h1', h2', h3', h4']
  · intro h1 h2 h3 h4 h5
    simp [detectPixKeyType, h1, h2, h3, h4, h5]
  · intro t ht
    unfold detectPixKeyType at ht
    unfold validatePixKey
    split at ht
    case isTrue h => cases ht; simp [h]
    all_goals split at ht
    case isTrue h => cases ht; simp [h]
    all_goals split at ht
    case isTrue h => cases ht; simp [h]
    all_goals split at ht
    case isTrue h => cases ht; simp [h]
    all_goals split at ht
    case isTrue h => cases ht; simp [h]
    all_goals cases ht

/-- Concrete instantiation of the classifier theorem: a sample of each key
type classifies back to its own type. -/
theorem detectPixKeyType_round_trip_samples :
    detectPixKeyType "123.456.789-09" = some PixKeyType.cpf ∧
    detectPixKeyType "12.345.678/0001-95" = some PixKeyType.cnpj ∧
    detectPixKeyType "a@b.com" = some PixKeyType.email ∧
    detectPixKeyType "+5511987654321" = some PixKeyType.phone ∧
    detectPixKeyType "a1b2c3d4e5f6a7b8c9d0a1b2c3d4e5f6" = some PixKeyType.random :=
  ⟨(detectPixKeyType_first_match_round_trip "123.456.789-09").1 (by decide),
   (detectPixKeyType_first_match_round_trip "12.345.678/0001-95").2.1 (by decide),
   (detectPixKeyType_first_match_round_trip "a@b.com").2.2.1 (by decide),
   (detectPixKeyType_first_match_round_trip "+5511987654321").2.2.2.1 (by decide),
   (detectPixKeyType_first_match_round_trip "a1b2c3d4e5f6a7b8c9d0a1b2c3d4e5f6").2.2.2.2.1
     (by decide)⟩

/-! ## Transaction lifecycle: the PIX router

The four lifecycle routes of the PIX router (the /process, /status/:id,
/cancel/:id and /retry/:id handlers of part_002, lines 467-934; the device
/process variant of part_000 lines 162-317 has the same effects) plus the
add-balance admin route are embedded as pure functions. Each takes the
ledger state (sub-account plus transactions indexed by creation order) and
an oracle value describing what the gateway did, and returns the next
ledger state together with the list of transaction-status writes it
persisted, in order. -/

/-- Outcome of the gateway makePix call (efiBankService.js lines 61-108):
the service catches transport errors itself, so the route sees either a
success object carrying the provider transaction id or an error result. -/
inductive MakePixResult where
  | success (transactionId : String)
  | failure (error : String)
deriving Repr, DecidableEq

/-- Outcome of the gateway checkPixStatus call (efiBankService.js lines
111-137): a success object carrying the provider status string, or an
error result. -/
inductive CheckStatusResult where
  | ok (status : String)
  | err (error : String)
deriving Repr, DecidableEq

/-- Outcome of the gateway cancelPix interaction as the cancel route
observes it (part_002 lines 736-781): the service reports success, reports
a failure result (it catches transport errors, timeouts included, in its
own try/catch: efiBankService.js lines 140-173), or the awaited call
throws, which the route handles in its catch block. -/
inductive CancelOutcome where
  | success
  | failed (error : String)
  | thrown (message : String)
deriving Repr, DecidableEq

/-- Ledger state the PIX routes read and write: one merchant sub-account
and its transactions in creation order. -/
structure SystemState where
  sub : SubAccount
  txs : List PixTransaction
deriving Repr, DecidableEq

/-- HTTP-level outcome of the cancel route: whether the route answered
success and whether it attached the warning field about a failed upstream
call. -/
structure CancelResponse where
  httpOk : Bool
  warning : Bool
deriving Repr, DecidableEq

/-- The /process route (part_002 lines 467-622; device variant part_000
lines 162-317): validator bounds on the amount and a non-empty key, the
canMakePix policy check, key classification and validation, creation of a
pending record, the gateway submit, then on success markAsProcessing,
debitAmount and markAsCompleted, and on gateway failure (or a throw during
the debit) markAsFailed without touching the wallet. -/
def processPix (s : SystemState) (pixKey : String) (amount : ℚ)
    (gw : MakePixResult) : SystemState × List (ℕ × TxStatus) :=
  if amount < (0.01 : ℚ) ∨ (99.99 : ℚ) < amount ∨ pixKey = "" then (s, [])
  else if !(canMakePix s.sub amount).can then (s, [])
  else
    match detectPixKeyType pixKey with
    | none => (s, [])
    | some kt =>
      if !(validatePixKey pixKey kt).valid then (s, [])
      else
        let i := s.txs.length
        let tx0 : PixTransaction :=
          { pixKey := pixKey, pixKeyType := kt, amount := amount,
            status := .pending, efiTransactionId := none,
            errorMessage := none, retryCount := 0 }
        match gw with
        | .success gwId =>
          let tx1 := markAsProcessing tx0
          match debitAmount s.sub amount with
          | .ok sub' =>
            (⟨sub', s.txs ++ [markAsCompleted tx1 gwId]⟩,
             [(i, .pending), (i, .processing), (i, .completed)])
          | .error e =>
            (⟨s.sub, s.txs ++ [markAsFailed tx1 e]⟩,
             [(i, .pending), (i, .processing), (i, .failed)])
        | .failure e =>
          (⟨s.sub, s.txs ++ [markAsFailed tx0 e]⟩, [(i, .pending), (i, .failed)])

/-- The /status/:transactionId route (part_002 lines 625-690): when the
transaction carries a gateway id and is still processing, a successful
checkPixStatus reporting CONCLUIDA marks it completed (re-using its stored
gateway id) and REMOVIDA_PELO_USUARIO_RECEBEDOR marks it cancelled; every
other outcome, gateway errors included, leaves the record as it is. The
sub-account is never read or written. -/
def getStatusRoute (s : SystemState) (i : ℕ) (st : CheckStatusResult) :
    SystemState × List (ℕ × TxStatus) :=
  match s.txs.get? i with
  | none => (s, [])
  | some tx =>
    if tx.efiTransactionId.isSome ∧ tx.status = .processing then
      match st with
      | .ok ps =>
        if ps = "CONCLUIDA" ∧ tx.status ≠ .completed then
          (⟨s.sub, s.txs.set i (markAsCompleted tx (tx.efiTransactionId.getD ""))⟩,
           [(i, .completed)])
        else if ps = "REMOVIDA_PELO_USUARIO_RECEBEDOR" ∧ tx.status ≠ .cancelled then
          (⟨s.sub, s.txs.set i (markAsCancelled tx)⟩, [(i, .cancelled)])
        else (s, [])
      | .err _ => (s, [])
    else (s, [])

/-- The /cancel/:transactionId route (part_002 lines 693-804): completed
and cancelled records are rejected; with a gateway id present the route
marks the record cancelled when the gateway reports success, answers a 400
error and leaves the record untouched when the gateway reports a failure
result, and marks the record cancelled with a warning when the gateway
call throws; without a gateway id it cancels directly. -/
def cancelRoute (s : SystemState) (i : ℕ) (o : CancelOutcome) :
    SystemState × List (ℕ × TxStatus) × CancelResponse :=
  match s.txs.get? i with
  | none => (s, [], ⟨false, false⟩)
  | some tx =>
    if tx.status = .completed then (s, [], ⟨false, false⟩)
    else if tx.status = .cancelled then (s, [], ⟨false, false⟩)
    else if tx.efiTransactionId.isSome then
      match o with
      | .success =>
        (⟨s.sub, s.txs.set i (markAsCancelled tx)⟩, [(i, .cancelled)], ⟨true, false⟩)
      | .failed _ => (s, [], ⟨false, false⟩)
      | .thrown _ =>
        (⟨s.sub, s.txs.set i (markAsCancelled tx)⟩, [(i, .cancelled)], ⟨true, true⟩)
    else
      (⟨s.sub, s.txs.set i (markAsCancelled tx)⟩, [(i, .cancelled)], ⟨true, false⟩)

/-- The /retry/:transactionId route (part_002 lines 807-934): rejected
unless canRetry holds (failed with fewer than 3 attempts); the Limit
Policy is re-validated against the current sub-account; the record is then
reset to pending (clearing the error message) and the submit is re-run
exactly as in /process. -/
def retryRoute (s : SystemState) (i : ℕ) (gw : MakePixResult) :
    SystemState × List (ℕ × TxStatus) :=
  match s.txs.get? i with
  | none => (s, [])
  | some tx =>
    if !(canRetry tx) then (s, [])
    else if !(canMakePix s.sub tx.amount).can then (s, [])
    else
      let tx0 := { tx with status := TxStatus.pending, errorMessage := none }
      match gw with
      | .success gwId =>
        let tx1 := markAsProcessing tx0
        match debitAmount s.sub tx.amount with
        | .ok sub' =>
          (⟨sub', s.txs.set i (markAsCompleted tx1 gwId)⟩,
           [(i, .pending), (i, .processing), (i, .completed)])
        | .error e =>
          (⟨s.sub, s.txs.set i (markAsFailed tx1 e)⟩,
           [(i, .pending), (i, .processing), (i, .failed)])
      | .failure e =>
        (⟨s.sub, s.txs.set i (markAsFailed tx0 e)⟩, [(i, .pending), (i, .failed)])

/-- The add-balance admin route (part_002 lines 345-391): credits the
sub-account through creditAmount; a rejected (non-positive) amount leaves
the state unchanged. -/
def addBalanceRoute (s : SystemState) (amount : ℚ) : SystemState :=
  match creditAmount s.sub amount with
  | .ok sub' => ⟨sub', s.txs⟩
  | .error _ => s

/-- One caller-visible operation against the ledger, with the gateway
outcome it observed. -/
inductive Op where
  | processOp (pixKey : String) (amount : ℚ) (gw : MakePixResult)
  | statusOp (i : ℕ) (st : CheckStatusResult)
  | cancelOp (i : ℕ) (o : CancelOutcome)
  | retryOp (i : ℕ) (gw : MakePixResult)
  | addBalanceOp (amount : ℚ)

/-- One operation step: the next state and the persisted status writes. -/
def step (s : SystemState) : Op → SystemState × List (ℕ × TxStatus)
  | .processOp k a gw => processPix s k a gw
  | .statusOp i st => getStatusRoute s i st
  | .cancelOp i o => ((cancelRoute s i o).1, (cancelRoute s i o).2.1)
  | .retryOp i gw => retryRoute s i gw
  | .addBalanceOp a => (addBalanceRoute s a, [])

/-- Running a sequence of operations. -/
def run (s : SystemState) : List Op → SystemState
  | [] => s
  | op :: ops => run (step s op).1 ops

/-- Contribution of a transaction to the completed ledger total: its
amount when completed, nothing otherwise. -/
def contrib (t : PixTransaction) : ℚ :=
  if t.status = .completed then t.amount else 0

/-- Sum of the amounts of the completed transactions. -/
def completedSum (txs : List PixTransaction) : ℚ :=
  (txs.map contrib).sum

/-- Total credited by the successful add-balance operations of a run. -/
def creditsOf : List Op → ℚ
  | [] => 0
  | .addBalanceOp a :: ops => (if 0 < a then a else 0) + creditsOf ops
  | _ :: ops => creditsOf ops

/-- Per-operation credit: what creditsOf adds for one operation. -/
def creditOf1 : Op → ℚ
  | .addBalanceOp a => if 0 < a then a else 0
  | _ => 0

/-- A stored transaction is well-formed: a recorded gateway id implies the
completed status (the only write of efiTransactionId in the Mongoose model
is markAsCompleted), and its amount is positive (the route validator
admits only amounts of at least 0.01). -/
def GoodTx (t : PixTransaction) : Prop :=
  (t.efiTransactionId.isSome = true → t.status = .completed) ∧ 0 < t.amount

/-- Ledger invariant: every stored transaction is well-formed. -/
def Inv (s : SystemState) : Prop := ∀ t ∈ s.txs, GoodTx t

lemma completedSum_nil : completedSum [] = 0 := rfl

lemma completedSum_cons (t : PixTransaction) (l : List PixTransaction) :
    completedSum (t :: l) = contrib t + completedSum l := by
  simp [completedSum]

lemma completedSum_append_one (l : List PixTransaction) (t : PixTransaction) :
    completedSum (l ++ [t]) = completedSum l + contrib t := by
  simp [completedSum]

lemma completedSum_set (l : List PixTransaction) (i : ℕ) (t t' : PixTransaction)
    (h : l.get? i = some t) :
    completedSum (l.set i t') = completedSum l - contrib t + contrib t' := by
  induction l generalizing i with
  | nil => simp at h
  | cons a l ih =>
    cases i with
    | zero =>
      simp only [List.get?] at h
      cases h
      simp only [List.set, completedSum_cons]
      ring
    | succ n =>
      simp only [List.get?] at h
      simp only [List.set, completedSum_cons, ih n h]
      ring

lemma creditsOf_cons (op : Op) (ops : List Op) :
    creditsOf (op :: ops) = creditOf1 op + creditsOf ops := by
  cases op <;> simp [creditsOf, creditOf1]

/-- The sub-account after a successful debit of a: the three counter
updates of debitAmount. -/
def debited (s : SubAccount) (a : ℚ) : SubAccount :=
  { s with
    balance := s.balance - a
    dailyPixUsed := s.dailyPixUsed + a
    dailyPixCount := s.dailyPixCount + 1 }

/-- When the policy check passes and the amount is positive, debitAmount
succeeds and performs exactly the three counter updates. -/
lemma debitAmount_of_can (s : SubAccount) (a : ℚ) (ha : 0 < a)
    (h : (canMakePix s a).can = true) :
    debitAmount s a = Except.ok (debited s a) := by
  unfold debitAmount debited
  rw [if_neg (not_le.mpr ha)]
  simp [h]

lemma contrib_markAsCompleted (t : PixTransaction) (gid : String) :
    contrib (markAsCompleted t gid) = t.amount := by
  simp [contrib, markAsCompleted]

lemma contrib_markAsFailed (t : PixTransaction) (m : String) :
    contrib (markAsFailed t m) = 0 := by
  simp [contrib, markAsFailed]

lemma contrib_markAsCancelled (t : PixTransaction) :
    contrib (markAsCancelled t) = 0 := by
  simp [contrib, markAsCancelled]

/-- One step preserves the ledger invariant and moves the conserved
quantity balance + completedSum by exactly the credited amount. -/
lemma step_good (s : SystemState) (op : Op) (h : Inv s) :
    Inv (step s op).1 ∧
    (step s op).1.sub.balance + completedSum (step s op).1.txs =
      s.sub.balance + completedSum s.txs + creditOf1 op := by
  cases op with
  | processOp k a gw =>
    simp only [step]
    unfold processPix
    split_ifs with hval hcan
    · exact ⟨h, by simp [creditOf1]⟩
    · exact ⟨h, by simp [creditOf1]⟩
    · rcases hdet : detectPixKeyType k with _ | kt
      · dsimp only
        exact ⟨h, by simp [creditOf1]⟩
      · dsimp only
        split_ifs with hvalid
        · exact ⟨h, by simp [creditOf1]⟩
        · have hapos : 0 < a := by
            push_neg at hval
            linarith [hval.1]
          have hcan' : (canMakePix s.sub a).can = true := by simpa using hcan
          cases gw with
          | success gwId =>
            rw [debitAmount_of_can s.sub a hapos hcan']
            dsimp only
            constructor
            · intro t ht
              rcases List.mem_append.mp ht with ht' | ht'
              · exact h t ht'
              · rcases List.mem_singleton.mp ht' with rfl
                exact ⟨fun _ => rfl, hapos⟩
            · rw [completedSum_append_one, contrib_markAsCompleted]
              simp [creditOf1, debited, markAsProcessing]
              try ring
          | failure e =>
            dsimp only
            constructor
            · intro t ht
              rcases List.mem_append.mp ht with ht' | ht'
              · exact h t ht'
              · rcases List.mem_singleton.mp ht' with rfl
                exact ⟨by simp [markAsFailed], hapos⟩
            · rw [completedSum_append_one, contrib_markAsFailed]
              simp [creditOf1]
  | statusOp i st =>
    simp only [step]
    cases hg : s.txs.get? i with
    | none =>
      unfold getStatusRoute
      rw [hg]
      exact ⟨h, by simp [creditOf1]⟩
    | some tx =>
      unfold getStatusRoute
      rw [hg]
      dsimp only
      have hgood : GoodTx tx := h tx (List.get?_mem hg)
      split_ifs with hc
      · exfalso
        have hcomp := hgood.1 hc.1
        rw [hcomp] at hc
        cases hc.2
      · exact ⟨h, by simp [creditOf1]⟩
  | cancelOp i o =>
    simp only [step]
    cases hg : s.txs.get? i with
    | none =>
      unfold cancelRoute
      rw [hg]
      exact ⟨h, by simp [creditOf1]⟩
    | some tx =>
      unfold cancelRoute
      rw [hg]
      dsimp only
      have hgood : GoodTx tx := h tx (List.get?_mem hg)
      have hmemset : tx.status ≠ .completed →
          ∀ t ∈ s.txs.set i (markAsCancelled tx), GoodTx t := by
        intro hnc t ht
        rcases List.mem_or_eq_of_mem_set ht with ht' | rfl
        · exact h t ht'
        · refine ⟨?_, hgood.2⟩
          intro habs
          simp only [markAsCancelled] at habs
          exact ((hnc (hgood.1 habs)).elim)
      have hsum : completedSum (s.txs.set i (markAsCancelled tx)) =
          completedSum s.txs - contrib tx := by
        rw [completedSum_set s.txs i tx _ hg, contrib_markAsCancelled]
        ring
      split_ifs with hcomp hcanc hefi
      · exact ⟨h, by simp [creditOf1]⟩
      · exact ⟨h, by simp [creditOf1]⟩
      · cases o with
        | success =>
          dsimp only
          refine ⟨hmemset hcomp, ?_⟩
          rw [hsum]
          have : contrib tx = 0 := by simp [contrib, hcomp]
          rw [this]
          simp [creditOf1]
        | failed e =>
          dsimp only
          exact ⟨h, by simp [creditOf1]⟩
        | thrown m =>
          dsimp only
          refine ⟨hmemset hcomp, ?_⟩
          rw [hsum]
          have : contrib tx = 0 := by simp [contrib, hcomp]
          rw [this]
          simp [creditOf1]
      · refine ⟨hmemset hcomp, ?_⟩
        rw [hsum]
        have : contrib tx = 0 := by simp [contrib, hcomp]
        rw [this]
        simp [creditOf1]
  | retryOp i gw =>
    simp only [step]
    cases hg : s.txs.get? i with
    | none =>
      unfold retryRoute
      rw [hg]
      exact ⟨h, by simp [creditOf1]⟩
    | some tx =>
      unfold retryRoute
      rw [hg]
      dsimp only
      have hgood : GoodTx tx := h tx (List.get?_mem hg)
      split_ifs with hretry hcan
      · exact ⟨h, by simp [creditOf1]⟩
      · exact ⟨h, by simp [creditOf1]⟩
      · have hretry' : canRetry tx = true := by simpa using hretry
        have hcan' : (canMakePix s.sub tx.amount).can = true := by simpa using hcan
        have hfailed : tx.status = .failed := by
          simp only [canRetry, Bool.and_eq_true, beq_iff_eq] at hretry'
          exact hretry'.1
        have hefin : tx.efiTransactionId.isSome = false := by
          cases he : tx.efiTransactionId.isSome
          · rfl
          · have hc := hgood.1 he
            rw [hfailed] at hc
            cases hc
        have hcontrib : contrib tx = 0 := by simp [contrib, hfailed]
        cases gw with
        | success gwId =>
          rw [debitAmount_of_can s.sub tx.amount hgood.2 hcan']
          dsimp only
          constructor
          · intro t ht
            rcases List.mem_or_eq_of_mem_set ht with ht' | rfl
            · exact h t ht'
            · exact ⟨fun _ => rfl, hgood.2⟩
          · rw [completedSum_set s.txs i tx _ hg, hcontrib, contrib_markAsCompleted]
            simp [creditOf1, debited, markAsProcessing]
            try ring
        | failure e =>
          dsimp only
          constructor
          · intro t ht
            rcases List.mem_or_eq_of_mem_set ht with ht' | rfl
            · exact h t ht'
            · refine ⟨?_, hgood.2⟩
              intro habs
              simp only [markAsFailed] at habs
              rw [hefin] at habs
              cases habs
          · rw [completedSum_set s.txs i tx _ hg, hcontrib, contrib_markAsFailed]
            simp [creditOf1]
  | addBalanceOp a =>
    simp only [step]
    unfold addBalanceRoute creditAmount
    split_ifs with hle
    · refine ⟨h, ?_⟩
      simp [creditOf1, not_lt.mpr hle]
    · refine ⟨h, ?_⟩
      simp only [creditOf1, if_pos (not_le.mp hle)]
      ring

/-- Running any operation sequence preserves the invariant and conserves
balance + completedSum up to the credits of the run. -/
lemma run_good (ops : List Op) (s : SystemState) (h : Inv s) :
    Inv (run s ops) ∧
    (run s ops).sub.balance + completedSum (run s ops).txs =
      s.sub.balance + completedSum s.txs + creditsOf ops := by
  induction ops generalizing s with
  | nil => exact ⟨h, by simp [run, creditsOf]⟩
  | cons op ops ih =>
    have hs := step_good s op h
    have hrec := ih (step s op).1 hs.1
    refine ⟨hrec.1, ?_⟩
    have : run s (op :: ops) = run (step s op).1 ops := rfl
    rw [this, creditsOf_cons]
    linarith [hrec.2, hs.2]

/-- C1: a debit is applied exactly when a transaction reaches completed:
over any operation sequence started from a ledger with no transactions,
the summed amounts of the completed transactions equal the initial balance
minus the current balance plus the total credits; moreover a process call
whose gateway submit fails marks its transaction failed and leaves the
wallet untouched. -/
theorem completed_debits_conserve_ledger (s₀ : SystemState) (ops : List Op)
    (h0 : s₀.txs = []) :
    completedSum (run s₀ ops).txs =
      s₀.sub.balance - (run s₀ ops).sub.balance + creditsOf ops ∧
    (∀ (s : SystemState) (k : String) (a : ℚ) (e : String),
      (processPix s k a (.failure e)).1.sub = s.sub ∧
      ∀ t ∈ (processPix s k a (.failure e)).1.txs, t ∈ s.txs ∨ t.status = .failed) := by
  constructor
  · have hInv : Inv s₀ := by
      intro t ht
      rw [h0] at ht
      cases ht
    have hrun := (run_good ops s₀ hInv).2
    rw [h0, completedSum_nil] at hrun
    linarith
  · intro s k a e
    unfold processPix
    split_ifs with h1 h2
    · exact ⟨rfl, fun t ht => Or.inl ht⟩
    · exact ⟨rfl, fun t ht => Or.inl ht⟩
    · rcases hdet : detectPixKeyType k with _ | kt
      · dsimp only
        exact ⟨rfl, fun t ht => Or.inl ht⟩
      · dsimp only
        split_ifs with h3
        · exact ⟨rfl, fun t ht => Or.inl ht⟩
        · dsimp only
          refine ⟨rfl, ?_⟩
          intro t ht
          rcases List.mem_append.mp ht with ht' | ht'
          · exact Or.inl ht'
          · rcases List.mem_singleton.mp ht' with rfl
            exact Or.inr rfl

/-- Scenario-A style wallet: balance 50.00, cap 99.99, daily limit 500.00,
nothing used today, active. -/
def demoSub : SubAccount := ⟨50, 99.99, 500, 0, 0, true⟩

/-- Fresh ledger around demoSub. -/
def demoState : SystemState := ⟨demoSub, []⟩

/-- One successful payout of 10.50 to an email key. -/
def demoOps : List Op := [.processOp "a@b.com" (10.5 : ℚ) (.success "E123")]

/-- Concrete instantiation of the conservation theorem on a fresh ledger
running one successful payout. -/
theorem completed_debits_conserve_ledger_witness :
    completedSum (run demoState demoOps).txs =
      demoState.sub.balance - (run demoState demoOps).sub.balance + creditsOf demoOps :=
  (completed_debits_conserve_ledger demoState demoOps rfl).1

/-! ## Status transition discipline -/

/-- Transition relation asserted by the specification: pending→processing,
processing→completed, processing→failed, processing→cancelled and
failed→pending only. -/
def claimStep : TxStatus → TxStatus → Bool
  | .pending, .processing => true
  | .processing, .completed => true
  | .processing, .failed => true
  | .processing, .cancelled => true
  | .failed, .pending => true
  | _, _ => false

/-- Transition relation the routes actually realize: the specified one
plus pending→failed (gateway submit failure before markAsProcessing),
pending→cancelled and failed→cancelled (cancel accepts every non-terminal
status). Terminal states have no successors. -/
def allowedStep : TxStatus → TxStatus → Bool
  | .pending, .processing => true
  | .pending, .failed => true
  | .pending, .cancelled => true
  | .processing, .completed => true
  | .processing, .failed => true
  | .processing, .cancelled => true
  | .failed, .pending => true
  | .failed, .cancelled => true
  | _, _ => false

/-- Current stored status of transaction i, when it exists. -/
def statusOf (s : SystemState) (i : ℕ) : Option TxStatus :=
  (s.txs.get? i).map (·.status)

/-- Current stored retry count of transaction i, when it exists. -/
def retryCountOf (s : SystemState) (i : ℕ) : Option ℕ :=
  (s.txs.get? i).map (·.retryCount)

/-- The statuses an operation persisted for transaction i, in write order. -/
def txEvents (evs : List (ℕ × TxStatus)) (i : ℕ) : List TxStatus :=
  (evs.filter (fun p => p.1 == i)).map (fun p => p.2)

/-- The status history of transaction i across one operation: its stored
status before the operation (when it existed) followed by the statuses the
operation persisted for it. -/
def startChain (s : SystemState) (i : ℕ) (evs : List (ℕ × TxStatus)) : List TxStatus :=
  (match statusOf s i with
   | some st => [st]
   | none => []) ++ txEvents evs i

/-- Every persisted status write respects a transition relation: for every
transaction, consecutive entries of its status history across the
operation are related. -/
def WritesOk (rel : TxStatus → TxStatus → Bool) (s : SystemState)
    (evs : List (ℕ × TxStatus)) : Prop :=
  ∀ i, List.Chain' (fun a b => rel a b = true) (startChain s i evs)

/-- When an operation writes only transaction j, checking its chain at j
settles WritesOk everywhere. -/
lemma writesOk_const (rel : TxStatus → TxStatus → Bool) (s : SystemState) (j : ℕ)
    (evs : List (ℕ × TxStatus)) (hconst : ∀ p ∈ evs, p.1 = j)
    (h : List.Chain' (fun a b => rel a b = true)
      ((match statusOf s j with
        | some st => [st]
        | none => []) ++ evs.map (fun p => p.2))) :
    WritesOk rel s evs := by
  intro i
  by_cases hij : i = j
  · subst hij
    unfold startChain
    have he : txEvents evs i = evs.map (fun p => p.2) := by
      unfold txEvents
      congr 1
      rw [List.filter_eq_self]
      intro p hp
      simp [hconst p hp]
    rw [he]
    exact h
  · unfold startChain
    have he : txEvents evs i = [] := by
      unfold txEvents
      rw [List.filter_eq_nil_iff.mpr, List.map_nil]
      intro p hp
      simp only [hconst p hp, beq_iff_eq, ne_eq]
      intro hji
      exact hij hji.symm
    rw [he, List.append_nil]
    cases statusOf s i
    · exact List.chain'_nil
    · exact List.chain'_singleton _

/-- Empty write lists satisfy WritesOk. -/
lemma writesOk_nil (rel : TxStatus → TxStatus → Bool) (s : SystemState) :
    WritesOk rel s [] := by
  intro i
  unfold startChain txEvents
  simp only [List.filter_nil, List.map_nil, List.append_nil]
  cases statusOf s i
  · exact List.chain'_nil
  · exact List.chain'_singleton _

/-- A transaction index past the end has no status. -/
lemma statusOf_len (s : SystemState) : statusOf s s.txs.length = none := by
  unfold statusOf
  rw [List.get?_eq_none.mpr (le_refl _)]
  rfl

/-- Every write list one operation persists steps through allowedStep. -/
lemma step_writesOk (s : SystemState) (op : Op) :
    WritesOk allowedStep s (step s op).2 := by
  cases op with
  | processOp k a gw =>
    simp only [step]
    unfold processPix
    split_ifs with h1 h2
    · exact writesOk_nil _ _
    · exact writesOk_nil _ _
    · rcases detectPixKeyType k with _ | kt
      · dsimp only
        exact writesOk_nil _ _
      · dsimp only
        split_ifs with h3
        · exact writesOk_nil _ _
        · cases gw with
          | success gwId =>
            cases hd : debitAmount s.sub a with
            | ok sub' =>
              dsimp only
              refine writesOk_const _ s s.txs.length _ (by intro p hp; simp at hp; aesop) ?_
              rw [statusOf_len]
              simp [allowedStep]
            | error e =>
              dsimp only
              refine writesOk_const _ s s.txs.length _ (by intro p hp; simp at hp; aesop) ?_
              rw [statusOf_len]
              simp [allowedStep]
          | failure e =>
            dsimp only
            refine writesOk_const _ s s.txs.length _ (by intro p hp; simp at hp; aesop) ?_
            rw [statusOf_len]
            simp [allowedStep]
  | statusOp j st =>
    simp only [step]
    cases hg : s.txs.get? j with
    | none =>
      unfold getStatusRoute
      rw [hg]
      exact writesOk_nil _ _
    | some tx =>
      unfold getStatusRoute
      rw [hg]
      dsimp only
      split_ifs with hc
      · cases st with
        | ok ps =>
          dsimp only
          have hst : statusOf s j = some TxStatus.processing := by
            unfold statusOf
            rw [hg]
            simp [hc.2]
          split_ifs with hp1 hp2
          · refine writesOk_const _ s j _ (by intro p hp; simp at hp; aesop) ?_
            rw [hst]
            simp [allowedStep]
          · refine writesOk_const _ s j _ (by intro p hp; simp at hp; aesop) ?_
            rw [hst]
            simp [allowedStep]
          · exact writesOk_nil _ _
        | err e =>
          dsimp only
          exact writesOk_nil _ _
      · exact writesOk_nil _ _
  | cancelOp j o =>
    simp only [step]
    cases hg : s.txs.get? j with
    | none =>
      unfold cancelRoute
      rw [hg]
      exact writesOk_nil _ _
    | some tx =>
      unfold cancelRoute
      rw [hg]
      dsimp only
      have hst : statusOf s j = some tx.status := by
        unfold statusOf
        rw [hg]
        rfl
      split_ifs with hcomp hcanc hefi
      · exact writesOk_nil _ _
      · exact writesOk_nil _ _
      · cases o with
        | success =>
          dsimp only
          refine writesOk_const _ s j _ (by intro p hp; simp at hp; aesop) ?_
          rw [hst]
          cases hts : tx.status <;> simp [allowedStep] <;> simp [hts] at hcomp hcanc
        | failed e =>
          dsimp only
          exact writesOk_nil _ _
        | thrown m =>
          dsimp only
          refine writesOk_const _ s j _ (by intro p hp; simp at hp; aesop) ?_
          rw [hst]
          cases hts : tx.status <;> simp [allowedStep] <;> simp [hts] at hcomp hcanc
      · refine writesOk_const _ s j _ (by intro p hp; simp at hp; aesop) ?_
        rw [hst]
        cases hts : tx.status <;> simp [allowedStep] <;> simp [hts] at hcomp hcanc
  | retryOp j gw =>
    simp only [step]
    cases hg : s.txs.get? j with
    | none =>
      unfold retryRoute
      rw [hg]
      exact writesOk_nil _ _
    | some tx =>
      unfold retryRoute
      rw [hg]
      dsimp only
      split_ifs with hretry hcan
      · exact writesOk_nil _ _
      · exact writesOk_nil _ _
      · have hretry' : canRetry tx = true := by simpa using hretry
        have hfailed : tx.status = .failed := by
          simp only [canRetry, Bool.and_eq_true, beq_iff_eq] at hretry'
          exact hretry'.1
        have hst : statusOf s j = some TxStatus.failed := by
          unfold statusOf
          rw [hg]
          simp [hfailed]
        cases gw with
        | success gwId =>
          cases hd : debitAmount s.sub tx.amount with
          | ok sub' =>
            dsimp only
            refine writesOk_const _ s j _ (by intro p hp; simp at hp; aesop) ?_
            rw [hst]
            simp [allowedStep]
          | error e =>
            dsimp only
            refine writesOk_const _ s j _ (by intro p hp; simp at hp; aesop) ?_
            rw [hst]
            simp [allowedStep]
        | failure e =>
          dsimp only
          refine writesOk_const _ s j _ (by intro p hp; simp at hp; aesop) ?_
          rw [hst]
          simp [allowedStep]
  | addBalanceOp a =>
    simp only [step]
    exact writesOk_nil _ _

/-- No single operation changes the stored status of a transaction that is
already completed or cancelled. -/
lemma step_preserves_terminal (s : SystemState) (op : Op) (i : ℕ)
    (h : statusOf s i = some .completed ∨ statusOf s i = some .cancelled) :
    statusOf (step s op).1 i = statusOf s i := by
  obtain ⟨tx, htx, hterm⟩ :
      ∃ tx, s.txs.get? i = some tx ∧
        (tx.status = TxStatus.completed ∨ tx.status = TxStatus.cancelled) := by
    unfold statusOf at h
    rcases ho : s.txs.get? i with _ | tx
    · rw [ho] at h
      rcases h with h | h <;> cases h
    · rw [ho] at h
      refine ⟨tx, rfl, ?_⟩
      rcases h with h | h
      · simp at h
        exact Or.inl h
      · simp at h
        exact Or.inr h
  obtain ⟨hlen, -⟩ := List.get?_eq_some.mp htx
  cases op with
  | processOp k a gw =>
    simp only [step]
    unfold processPix
    split_ifs with h1 h2
    · rfl
    · rfl
    · rcases detectPixKeyType k with _ | kt
      · dsimp only
      · dsimp only
        split_ifs with h3
        · rfl
        · cases gw with
          | success gwId =>
            cases hd : debitAmount s.sub a with
            | ok sub' =>
              dsimp only
              unfold statusOf
              rw [List.get?_append hlen]
            | error e =>
              dsimp only
              unfold statusOf
              rw [List.get?_append hlen]
          | failure e =>
            dsimp only
            unfold statusOf
            rw [List.get?_append hlen]
  | statusOp j st =>
    simp only [step]
    cases hg : s.txs.get? j with
    | none =>
      unfold getStatusRoute
      rw [hg]
    | some tx2 =>
      unfold getStatusRoute
      rw [hg]
      dsimp only
      split_ifs with hc
      · cases st with
        | ok ps =>
          dsimp only
          have hne : j ≠ i := by
            intro hji
            subst hji
            rw [htx] at hg
            cases hg
            rcases hterm with h' | h' <;> rw [h'] at hc <;> cases hc.2
          split_ifs with hp1 hp2
          · unfold statusOf
            rw [List.get?_set_ne _ _ hne]
          · unfold statusOf
            rw [List.get?_set_ne _ _ hne]
          · rfl
        | err e =>
          dsimp only
      · rfl
  | cancelOp j o =>
    simp only [step]
    cases hg : s.txs.get? j with
    | none =>
      unfold cancelRoute
      rw [hg]
    | some tx2 =>
      unfold cancelRoute
      rw [hg]
      dsimp only
      have hne : tx2.status ≠ .completed → tx2.status ≠ .cancelled → j ≠ i := by
        intro hnc hnx hji
        subst hji
        rw [htx] at hg
        cases hg
        rcases hterm with h' | h'
        · exact hnc h'
        · exact hnx h'
      split_ifs with hcomp hcanc hefi
      · rfl
      · rfl
      · cases o with
        | success =>
          dsimp only
          unfold statusOf
          rw [List.get?_set_ne _ _ (hne hcomp hcanc)]
        | failed e =>
          rfl
        | thrown m =>
          dsimp only
          unfold statusOf
          rw [List.get?_set_ne _ _ (hne hcomp hcanc)]
      · unfold statusOf
        rw [List.get?_set_ne _ _ (hne hcomp hcanc)]
  | retryOp j gw =>
    simp only [step]
    cases hg : s.txs.get? j with
    | none =>
      unfold retryRoute
      rw [hg]
    | some tx2 =>
      unfold retryRoute
      rw [hg]
      dsimp only
      split_ifs with hretry hcan
      · rfl
      · rfl
      · have hretry' : canRetry tx2 = true := by simpa using hretry
        have hfailed : tx2.status = .failed := by
          simp only [canRetry, Bool.and_eq_true, beq_iff_eq] at hretry'
          exact hretry'.1
        have hne : j ≠ i := by
          intro hji
          subst hji
          rw [htx] at hg
          cases hg
          rcases hterm with h' | h' <;> rw [h'] at hfailed <;> cases hfailed
        cases gw with
        | success gwId =>
          cases hd : debitAmount s.sub tx2.amount with
          | ok sub' =>
            dsimp only
            unfold statusOf
            rw [List.get?_set_ne _ _ hne]
          | error e =>
            dsimp only
            unfold statusOf
            rw [List.get?_set_ne _ _ hne]
        | failure e =>
          dsimp only
          unfold statusOf
          rw [List.get?_set_ne _ _ hne]
  | addBalanceOp a =>
    simp only [step]
    unfold addBalanceRoute creditAmount
    split_ifs <;> rfl

/-- No operation sequence changes the stored status of a transaction that
is already completed or cancelled. -/
lemma run_preserves_terminal (ops : List Op) (s : SystemState) (i : ℕ)
    (h : statusOf s i = some .completed ∨ statusOf s i = some .cancelled) :
    statusOf (run s ops) i = statusOf s i := by
  induction ops generalizing s with
  | nil => rfl
  | cons op ops ih =>
    have hstep := step_preserves_terminal s op i h
    have hterm' : statusOf (step s op).1 i = some .completed ∨
        statusOf (step s op).1 i = some .cancelled := by
      rw [hstep]
      exact h
    have : run s (op :: ops) = run (step s op).1 ops := rfl
    rw [this, ih (step s op).1 hterm', hstep]

/-- C6 (amended): every status write an operation persists steps along
pending→processing, pending→failed, pending→cancelled,
processing→completed, processing→failed, processing→cancelled,
failed→pending and failed→cancelled; the failed→pending reset happens only
through retry on a failed transaction with retry count below 3; and once a
transaction is completed or cancelled, no operation sequence ever changes
its stored status. -/
theorem status_transitions_discipline :
    (∀ (s : SystemState) (op : Op), WritesOk allowedStep s (step s op).2) ∧
    (∀ (s : SystemState) (i : ℕ) (gw : MakePixResult) (tx : PixTransaction),
      s.txs.get? i = some tx → (retryRoute s i gw).2 ≠ [] →
      tx.status = .failed ∧ tx.retryCount < 3) ∧
    (∀ (s : SystemState) (ops : List Op) (i : ℕ),
      statusOf s i = some .completed ∨ statusOf s i = some .cancelled →
      statusOf (run s ops) i = statusOf s i) := by
  refine ⟨step_writesOk, ?_, fun s ops i h => run_preserves_terminal ops s i h⟩
  intro s i gw tx htx hne
  unfold retryRoute at hne
  rw [htx] at hne
  dsimp only at hne
  split_ifs at hne with h1 h2
  · simp at hne
  · simp at hne
  · have h1' : canRetry tx = true := by simpa using h1
    simp only [canRetry, Bool.and_eq_true, beq_iff_eq, decide_eq_true_eq] at h1'
    exact h1'

/-- A completed transaction with its recorded gateway id. -/
def doneTx : PixTransaction :=
  ⟨"a@b.com", PixKeyType.email, 10, .completed, some "E1", none, 0⟩

/-- Ledger holding one completed transaction. -/
def doneState : SystemState := ⟨demoSub, [doneTx]⟩

/-- Concrete instantiation: cancelling a completed transaction leaves its
status untouched. -/
theorem status_transitions_discipline_witness :
    statusOf (run doneState [Op.cancelOp 0 CancelOutcome.success]) 0 =
      statusOf doneState 0 :=
  status_transitions_discipline.2.2 doneState [Op.cancelOp 0 CancelOutcome.success] 0
    (Or.inl rfl)

/-- A pending transaction that has not been submitted. -/
def pendTx : PixTransaction :=
  ⟨"a@b.com", PixKeyType.email, 10, .pending, none, none, 0⟩

/-- Ledger holding one pending transaction. -/
def pendState : SystemState := ⟨demoSub, [pendTx]⟩

/-- C6 counterexample: cancel on a pending transaction persists the write
pending→cancelled, a transition absent from the specified list (which only
admits pending→processing, processing→completed/failed/cancelled and
failed→pending). -/
theorem cancel_on_pending_violates_claimed_transitions :
    statusOf pendState 0 = some TxStatus.pending ∧
    (step pendState (Op.cancelOp 0 CancelOutcome.success)).2 =
      [(0, TxStatus.cancelled)] ∧
    claimStep TxStatus.pending TxStatus.cancelled = false :=
  ⟨rfl, rfl, rfl⟩

/-! ## Retry route behaviour -/

/-- Retry is a no-op when canRetry fails. -/
lemma retryRoute_reject_notRetryable (s : SystemState) (i : ℕ) (tx : PixTransaction)
    (gw : MakePixResult) (hg : s.txs.get? i = some tx) (h : canRetry tx = false) :
    retryRoute s i gw = (s, []) := by
  unfold retryRoute
  rw [hg]
  dsimp only
  rw [if_pos (by simp [h])]

/-- Retry is a no-op when the re-validated policy denies. -/
lemma retryRoute_reject_policy (s : SystemState) (i : ℕ) (tx : PixTransaction)
    (gw : MakePixResult) (hg : s.txs.get? i = some tx) (hcr : canRetry tx = true)
    (h : (canMakePix s.sub tx.amount).can = false) :
    retryRoute s i gw = (s, []) := by
  unfold retryRoute
  rw [hg]
  dsimp only
  rw [if_neg (by simp [hcr]), if_pos (by simp [h])]

/-- An accepted retry whose re-submit succeeds: the record passes through
pending and processing to completed and the wallet is debited. -/
lemma retryRoute_success_eq (s : SystemState) (i : ℕ) (tx : PixTransaction)
    (gid : String) (hg : s.txs.get? i = some tx) (hcr : canRetry tx = true)
    (hcan : (canMakePix s.sub tx.amount).can = true) (hpos : 0 < tx.amount) :
    retryRoute s i (.success gid) =
      (⟨debited s.sub tx.amount,
        s.txs.set i (markAsCompleted (markAsProcessing
          { tx with status := TxStatus.pending, errorMessage := none }) gid)⟩,
       [(i, .pending), (i, .processing), (i, .completed)]) := by
  unfold retryRoute
  rw [hg]
  dsimp only
  rw [if_neg (by simp [hcr]), if_neg (by simp [hcan]),
    debitAmount_of_can s.sub tx.amount hpos hcan]

/-- An accepted retry whose re-submit fails: the record passes through
pending back to failed and the wallet is untouched. -/
lemma retryRoute_failure_eq (s : SystemState) (i : ℕ) (tx : PixTransaction)
    (e : String) (hg : s.txs.get? i = some tx) (hcr : canRetry tx = true)
    (hcan : (canMakePix s.sub tx.amount).can = true) :
    retryRoute s i (.failure e) =
      (⟨s.sub, s.txs.set i (markAsFailed
        { tx with status := TxStatus.pending, errorMessage := none } e)⟩,
       [(i, .pending), (i, .failed)]) := by
  unfold retryRoute
  rw [hg]
  dsimp only
  rw [if_neg (by simp [hcr]), if_neg (by simp [hcan])]

/-- C5 (amended): retry is rejected (state and writes unchanged) unless
the status is failed with retry count below 3, and also when the
re-validated limit policy denies; an accepted retry resets the record to
pending and re-runs the submit; the retry count increases exactly when the
re-run fails, and stays unchanged when it succeeds (only markAsFailed
increments it). -/
theorem retry_gating_and_count (s : SystemState) (i : ℕ) (tx : PixTransaction)
    (hg : s.txs.get? i = some tx) :
    (canRetry tx = false → ∀ gw, retryRoute s i gw = (s, [])) ∧
    (canRetry tx = true → (canMakePix s.sub tx.amount).can = false →
      ∀ gw, retryRoute s i gw = (s, [])) ∧
    (canRetry tx = true → (canMakePix s.sub tx.amount).can = true → 0 < tx.amount →
      ∀ gid,
        statusOf (retryRoute s i (.success gid)).1 i = some .completed ∧
        retryCountOf (retryRoute s i (.success gid)).1 i = some tx.retryCount ∧
        (retryRoute s i (.success gid)).1.sub = debited s.sub tx.amount ∧
        (retryRoute s i (.success gid)).2 =
          [(i, .pending), (i, .processing), (i, .completed)]) ∧
    (canRetry tx = true → (canMakePix s.sub tx.amount).can = true →
      ∀ e,
        statusOf (retryRoute s i (.failure e)).1 i = some .failed ∧
        retryCountOf (retryRoute s i (.failure e)).1 i = some (tx.retryCount + 1) ∧
        (retryRoute s i (.failure e)).1.sub = s.sub ∧
        (retryRoute s i (.failure e)).2 = [(i, .pending), (i, .failed)]) := by
  obtain ⟨hlen, -⟩ := List.get?_eq_some.mp hg
  refine ⟨?_, ?_, ?_, ?_⟩
  · intro h gw
    exact retryRoute_reject_notRetryable s i tx gw hg h
  · intro hcr h gw
    exact retryRoute_reject_policy s i tx gw hg hcr h
  · intro hcr hcan hpos gid
    rw [retryRoute_success_eq s i tx gid hg hcr hcan hpos]
    refine ⟨?_, ?_, rfl, rfl⟩
    · unfold statusOf
      rw [List.get?_set_eq_of_lt _ hlen]
      rfl
    · unfold retryCountOf
      rw [List.get?_set_eq_of_lt _ hlen]
      rfl
  · intro hcr hcan e
    rw [retryRoute_failure_eq s i tx e hg hcr hcan]
    refine ⟨?_, ?_, rfl, rfl⟩
    · unfold statusOf
      rw [List.get?_set_eq_of_lt _ hlen]
      rfl
    · unfold retryCountOf
      rw [List.get?_set_eq_of_lt _ hlen]
      rfl

/-- A failed transaction that already used its three attempts. -/
def failTx3 : PixTransaction :=
  ⟨"a@b.com", PixKeyType.email, 10, .failed, none, some "err", 3⟩

/-- Ledger holding the exhausted failed transaction. -/
def failState3 : SystemState := ⟨demoSub, [failTx3]⟩

/-- Concrete instantiation (Scenario D): retry on a failed transaction
with retryCount = 3 is rejected and changes nothing. -/
theorem retry_gating_and_count_witness :
    retryRoute failState3 0 (.success "E9") = (failState3, []) :=
  (retry_gating_and_count failState3 0 failTx3 rfl).1 (by decide)
    (MakePixResult.success "E9")

/-- A failed transaction with one prior attempt. -/
def failTx1 : PixTransaction :=
  ⟨"a@b.com", PixKeyType.email, 10, .failed, none, some "err", 1⟩

/-- Ledger holding the retryable failed transaction. -/
def failState1 : SystemState := ⟨demoSub, [failTx1]⟩

/-- C5 counterexample: a successful retry completes the transaction but
leaves the retry count at its previous value 1: the count is not
incremented when the re-run succeeds. -/
theorem retry_success_does_not_increment :
    statusOf (retryRoute failState1 0 (.success "E9")).1 0 =
      some TxStatus.completed ∧
    retryCountOf (retryRoute failState1 0 (.success "E9")).1 0 = some 1 ∧
    (1 : ℕ) ≠ 1 + 1 := by
  have h := retryRoute_success_eq failState1 0 failTx1 "E9" rfl (by decide)
    (by norm_num [canMakePix, failState1, demoSub, failTx1])
    (by norm_num [failTx1])
  rw [h]
  exact ⟨rfl, rfl, by decide⟩

/-! ## Status route and cancel route behaviour -/

/-- C3 (amended): a getStatus call on a processing transaction with a
gateway id upgrades it to completed on CONCLUIDA and downgrades it to
cancelled on REMOVIDA_PELO_USUARIO_RECEBEDOR, and in both cases leaves the
sub-account untouched: the status route performs no debit. -/
theorem getStatus_settles_without_debit (s : SystemState) (i : ℕ)
    (tx : PixTransaction) (hg : s.txs.get? i = some tx)
    (hst : tx.status = .processing) (hefi : tx.efiTransactionId.isSome = true) :
    statusOf (getStatusRoute s i (.ok "CONCLUIDA")).1 i = some .completed ∧
    (getStatusRoute s i (.ok "CONCLUIDA")).1.sub = s.sub ∧
    statusOf (getStatusRoute s i
      (.ok "REMOVIDA_PELO_USUARIO_RECEBEDOR")).1 i = some .cancelled ∧
    (getStatusRoute s i (.ok "REMOVIDA_PELO_USUARIO_RECEBEDOR")).1.sub = s.sub := by
  obtain ⟨hlen, -⟩ := List.get?_eq_some.mp hg
  have hcond : tx.efiTransactionId.isSome = true ∧ tx.status = .processing :=
    ⟨hefi, hst⟩
  have hC : getStatusRoute s i (.ok "CONCLUIDA") =
      (⟨s.sub, s.txs.set i (markAsCompleted tx (tx.efiTransactionId.getD ""))⟩,
       [(i, .completed)]) := by
    unfold getStatusRoute
    rw [hg]
    dsimp only
    rw [if_pos hcond, if_pos ⟨rfl, by simp [hst]⟩]
  have hR : getStatusRoute s i (.ok "REMOVIDA_PELO_USUARIO_RECEBEDOR") =
      (⟨s.sub, s.txs.set i (markAsCancelled tx)⟩, [(i, .cancelled)]) := by
    unfold getStatusRoute
    rw [hg]
    dsimp only
    rw [if_pos hcond, if_neg (by simp), if_pos ⟨rfl, by simp [hst]⟩]
  rw [hC, hR]
  refine ⟨?_, rfl, ?_, rfl⟩
  · unfold statusOf
    rw [List.get?_set_eq_of_lt _ hlen]
    rfl
  · unfold statusOf
    rw [List.get?_set_eq_of_lt _ hlen]
    rfl

/-- A processing transaction that carries a gateway id. -/
def procTx : PixTransaction :=
  ⟨"a@b.com", PixKeyType.email, 10, .processing, some "E1", none, 0⟩

/-- Ledger holding the processing transaction over the demo wallet. -/
def procState : SystemState := ⟨demoSub, [procTx]⟩

/-- Concrete instantiation of the status-route theorem on the processing
transaction. -/
theorem getStatus_settles_without_debit_witness :
    statusOf (getStatusRoute procState 0 (.ok "CONCLUIDA")).1 0 =
      some TxStatus.completed ∧
    (getStatusRoute procState 0 (.ok "CONCLUIDA")).1.sub = procState.sub :=
  ⟨(getStatus_settles_without_debit procState 0 procTx rfl rfl rfl).1,
   (getStatus_settles_without_debit procState 0 procTx rfl rfl rfl).2.1⟩

/-- C3 counterexample: the status route observing CONCLUIDA on a
processing transaction of amount 10 marks it completed but does not debit:
the wallet stays exactly demoSub (balance 50), while the debit the claim
asserts would have changed it. -/
theorem getStatus_settles_but_never_debits :
    statusOf (getStatusRoute procState 0 (.ok "CONCLUIDA")).1 0 =
      some TxStatus.completed ∧
    (getStatusRoute procState 0 (.ok "CONCLUIDA")).1.sub = demoSub ∧
    debited demoSub procTx.amount ≠ demoSub := by
  refine ⟨rfl, rfl, ?_⟩
  intro hab
  have hb := congrArg SubAccount.balance hab
  simp only [debited, demoSub, procTx] at hb
  norm_num at hb

/-- C4 (amended): cancel on a non-terminal transaction with a gateway id:
a gateway-reported success cancels locally without warning; a thrown
gateway call cancels locally with the warning flag set; a gateway-reported
failure result — which the gateway client returns for every transport
error, timeouts included, because cancelPix catches internally — leaves
the transaction in its previous status and answers an error. -/
theorem cancel_local_mark_per_gateway_outcome (s : SystemState) (i : ℕ)
    (tx : PixTransaction) (hg : s.txs.get? i = some tx)
    (hnc : tx.status ≠ .completed) (hnx : tx.status ≠ .cancelled)
    (hefi : tx.efiTransactionId.isSome = true) :
    (statusOf (cancelRoute s i .success).1 i = some .cancelled ∧
      (cancelRoute s i .success).2.2 = ⟨true, false⟩) ∧
    (∀ m, statusOf (cancelRoute s i (.thrown m)).1 i = some .cancelled ∧
      (cancelRoute s i (.thrown m)).2.2 = ⟨true, true⟩) ∧
    (∀ e, (cancelRoute s i (.failed e)).1 = s ∧
      (cancelRoute s i (.failed e)).2.2 = ⟨false, false⟩) := by
  obtain ⟨hlen, -⟩ := List.get?_eq_some.mp hg
  have hbase : ∀ o, cancelRoute s i o =
      (match o with
       | .success =>
         (⟨s.sub, s.txs.set i (markAsCancelled tx)⟩, [(i, .cancelled)],
          (⟨true, false⟩ : CancelResponse))
       | .failed _ => (s, [], ⟨false, false⟩)
       | .thrown _ =>
         (⟨s.sub, s.txs.set i (markAsCancelled tx)⟩, [(i, .cancelled)],
          ⟨true, true⟩)) := by
    intro o
    unfold cancelRoute
    rw [hg]
    dsimp only
    rw [if_neg hnc, if_neg hnx, if_pos hefi]
  have hset : statusOf (⟨s.sub, s.txs.set i (markAsCancelled tx)⟩ : SystemState) i =
      some .cancelled := by
    unfold statusOf
    dsimp only
    rw [List.get?_set_eq_of_lt _ hlen]
    rfl
  refine ⟨?_, ?_, ?_⟩
  · rw [hbase .success]
    exact ⟨hset, rfl⟩
  · intro m
    rw [hbase (.thrown m)]
    exact ⟨hset, rfl⟩
  · intro e
    rw [hbase (.failed e)]
    exact ⟨rfl, rfl⟩

/-- Concrete instantiation: a thrown gateway cancel still cancels locally
and sets the warning flag. -/
theorem cancel_local_mark_witness :
    statusOf (cancelRoute procState 0 (.thrown "socket hang up")).1 0 =
      some TxStatus.cancelled ∧
    (cancelRoute procState 0 (.thrown "socket hang up")).2.2 = ⟨true, true⟩ :=
  (cancel_local_mark_per_gateway_outcome procState 0 procTx rfl
    (by decide) (by decide) rfl).2.1 "socket hang up"

/-- C4 counterexample: cancelling a processing transaction whose gateway
cancel call reports failure (exactly what the client returns when the
upstream call times out) leaves the local status processing with a plain
error response: no cancelled mark, no warning flag. -/
theorem cancel_gateway_failure_leaves_processing :
    statusOf (cancelRoute procState 0
      (.failed "timeout of 10000ms exceeded")).1 0 = some TxStatus.processing ∧
    (cancelRoute procState 0 (.failed "timeout of 10000ms exceeded")).2.2 =
      ⟨false, false⟩ ∧
    TxStatus.processing ≠ TxStatus.cancelled :=
  ⟨rfl, rfl, by decide⟩

/-- C10: whatever the gateway outcome, the cancel route leaves the
sub-account untouched: cancellation never refunds or credits the wallet. -/
theorem cancel_never_touches_wallet (s : SystemState) (i : ℕ)
    (tx : PixTransaction) (o : CancelOutcome) (hg : s.txs.get? i = some tx)
    (hnc : tx.status ≠ .completed) (hnx : tx.status ≠ .cancelled) :
    (cancelRoute s i o).1.sub = s.sub := by
  unfold cancelRoute
  rw [hg]
  dsimp only
  rw [if_neg hnc, if_neg hnx]
  split_ifs with hefi
  · cases o <;> rfl
  · rfl

/-- Concrete instantiation: cancelling the processing transaction leaves
the wallet exactly as it was. -/
theorem cancel_never_touches_wallet_witness :
    (cancelRoute procState 0 CancelOutcome.success).1.sub = procState.sub :=
  cancel_never_touches_wallet procState 0 procTx CancelOutcome.success rfl
    (by decide) (by decide)

/-! ## Limit policy ordering -/

/-- C2 (amended): canMakePix evaluates its conditions in the fixed order
(1) sub-account inactive, (2) amount exceeds the per-transaction cap,
(3) amount exceeds the balance, (4) daily limit exceeded, and returns the
reason of the first condition that fails; in particular, when an amount
exceeds both the daily limit and the balance, the insufficient-balance
reason is returned, not the daily-limit reason. -/
theorem canMakePix_priority (s : SubAccount) (a : ℚ) :
    (s.isActive = false → canMakePix s a = ⟨false, "Subconta inativa"⟩) ∧
    (s.isActive = true → s.maxPixAmount < a →
      canMakePix s a = ⟨false, "Valor excede limite máximo por PIX"⟩) ∧
    (s.isActive = true → a ≤ s.maxPixAmount → s.balance < a →
      canMakePix s a = ⟨false, "Saldo insuficiente"⟩) ∧
    (s.isActive = true → a ≤ s.maxPixAmount → a ≤ s.balance →
      s.dailyPixLimit < s.dailyPixUsed + a →
      canMakePix s a = ⟨false, "Excede limite diário"⟩) ∧
    (s.isActive = true → a ≤ s.maxPixAmount → a ≤ s.balance →
      s.dailyPixUsed + a ≤ s.dailyPixLimit → canMakePix s a = ⟨true, "OK"⟩) := by
  refine ⟨?_, ?_, ?_, ?_, ?_⟩
  · intro h1
    simp [canMakePix, h1]
  · intro h1 h2
    simp [canMakePix, h1, h2]
  · intro h1 h2 h3
    simp [canMakePix, h1, not_lt.mpr h2, h3]
  · intro h1 h2 h3 h4
    simp [canMakePix, h1, not_lt.mpr h2, not_lt.mpr h3, h4]
  · intro h1 h2 h3 h4
    simp [canMakePix, h1, not_lt.mpr h2, not_lt.mpr h3, not_lt.mpr h4]

/-- Wallet where a 7.00 payout exceeds both the balance (5.00) and the
daily headroom (used 8.00 of limit 10.00), under the 99.00 cap, active. -/
def tightSub : SubAccount := ⟨5, 99, 10, 8, 0, true⟩

/-- C2 counterexample: the amount 7 exceeds both the daily limit and the
balance, and canMakePix answers the insufficient-balance reason: the code
checks the balance before the daily limit, contrary to the claimed order. -/
theorem canMakePix_balance_before_daily :
    tightSub.balance < 7 ∧
    tightSub.dailyPixLimit < tightSub.dailyPixUsed + 7 ∧
    (7 : ℚ) ≤ tightSub.maxPixAmount ∧
    tightSub.isActive = true ∧
    canMakePix tightSub 7 = ⟨false, "Saldo insuficiente"⟩ ∧
    "Saldo insuficiente" ≠ "Excede limite diário" := by
  refine ⟨by norm_num [tightSub], by norm_num [tightSub], by norm_num [tightSub],
    rfl, by norm_num [canMakePix, tightSub], by decide⟩

/-- Concrete instantiation of the priority theorem at the tight wallet. -/
theorem canMakePix_priority_witness :
    canMakePix tightSub 7 = ⟨false, "Saldo insuficiente"⟩ :=
  (canMakePix_priority tightSub 7).2.2.1 rfl (by norm_num [tightSub])
    (by norm_num [tightSub])

/-! ## Wallet invariants under debit / credit sequences -/

/-- A wallet mutation as the routes perform them. -/
inductive WalletOp where
  | debitOp (amount : ℚ)
  | creditOp (amount : ℚ)

/-- The amount a wallet operation carries. -/
def walletOpAmount : WalletOp → ℚ
  | .debitOp a => a
  | .creditOp a => a

/-- Applying one wallet operation; a thrown debit or credit leaves the
wallet unchanged (the routes catch the exception and report an error). -/
def applyWalletOp (s : SubAccount) : WalletOp → SubAccount
  | .debitOp a =>
    match debitAmount s a with
    | .ok s' => s'
    | .error _ => s
  | .creditOp a =>
    match creditAmount s a with
    | .ok s' => s'
    | .error _ => s

/-- Applying a sequence of wallet operations. -/
def applyWalletOps (s : SubAccount) : List WalletOp → SubAccount
  | [] => s
  | op :: ops => applyWalletOps (applyWalletOp s op) ops

/-- The wallet invariant of the specification: nonnegative balance and a
daily accumulator between zero and the daily limit. -/
def ValidWallet (s : SubAccount) : Prop :=
  0 ≤ s.balance ∧ 0 ≤ s.dailyPixUsed ∧ s.dailyPixUsed ≤ s.dailyPixLimit

/-- A passing policy check bounds the amount by the balance and the daily
headroom. -/
lemma canMakePix_can_facts (s : SubAccount) (a : ℚ)
    (h : (canMakePix s a).can = true) :
    a ≤ s.balance ∧ s.dailyPixUsed + a ≤ s.dailyPixLimit := by
  unfold canMakePix at h
  split_ifs at h with h1 h2 h3 h4
  exact ⟨not_lt.mp h3, not_lt.mp h4⟩

/-- One wallet operation preserves the wallet invariant. -/
lemma applyWalletOp_valid (s : SubAccount) (op : WalletOp) (h : ValidWallet s) :
    ValidWallet (applyWalletOp s op) := by
  cases op with
  | debitOp a =>
    dsimp only [applyWalletOp]
    by_cases h1 : a ≤ 0
    · have heq : debitAmount s a = .error "Valor deve ser maior que zero" := by
        simp [debitAmount, h1]
      rw [heq]
      exact h
    · by_cases h2 : (canMakePix s a).can = true
      · have heq : debitAmount s a = .ok (debited s a) :=
          debitAmount_of_can s a (not_le.mp h1) h2
        rw [heq]
        show ValidWallet (debited s a)
        obtain ⟨hb, hdl⟩ := canMakePix_can_facts s a h2
        have hpa : 0 < a := not_le.mp h1
        refine ⟨?_, ?_, ?_⟩
        · simp only [debited]
          exact sub_nonneg.mpr hb
        · simp only [debited]
          exact add_nonneg h.2.1 hpa.le
        · simp only [debited]
          exact hdl
      · have h2' : (canMakePix s a).can = false := by
          cases hcc : (canMakePix s a).can
          · rfl
          · exact absurd hcc h2
        have heq : debitAmount s a = .error (canMakePix s a).reason := by
          simp [debitAmount, h1, h2']
        rw [heq]
        exact h
  | creditOp a =>
    dsimp only [applyWalletOp]
    by_cases h1 : a ≤ 0
    · have heq : creditAmount s a = .error "Valor deve ser maior que zero" := by
        simp [creditAmount, h1]
      rw [heq]
      exact h
    · have heq : creditAmount s a = .ok { s with balance := s.balance + a } := by
        simp [creditAmount, h1]
      rw [heq]
      show ValidWallet { s with balance := s.balance + a }
      have hpa : 0 < a := not_le.mp h1
      exact ⟨by simpa using add_nonneg h.1 hpa.le, h.2.1, h.2.2⟩

/-- Any sequence of wallet operations preserves the wallet invariant. -/
lemma applyWalletOps_valid (ops : List WalletOp) (s : SubAccount)
    (h : ValidWallet s) : ValidWallet (applyWalletOps s ops) := by
  induction ops generalizing s with
  | nil => exact h
  | cons op ops ih => exact ih (applyWalletOp s op) (applyWalletOp_valid s op h)

/-- C7: from a valid wallet, every sequence of debit and credit operations
with positive amounts keeps 0 ≤ balance and
0 ≤ dailyPixUsed ≤ dailyPixLimit; debitAmount re-checks the policy and
throws (never applying a violating debit), and creditAmount only increases
the balance. -/
theorem wallet_invariants_preserved (s0 : SubAccount) (ops : List WalletOp)
    (h0 : ValidWallet s0) (hpos : ∀ op ∈ ops, 0 < walletOpAmount op) :
    ValidWallet (applyWalletOps s0 ops) ∧
    (∀ (s : SubAccount) (a : ℚ), (canMakePix s a).can = false →
      debitAmount s a = .error (canMakePix s a).reason ∨
      debitAmount s a = .error "Valor deve ser maior que zero") ∧
    (∀ (s : SubAccount) (a : ℚ), 0 < a →
      creditAmount s a = .ok { s with balance := s.balance + a }) := by
  refine ⟨applyWalletOps_valid ops s0 h0, ?_, ?_⟩
  · intro s a hcf
    simp only [debitAmount]
    split_ifs with h1 h2
    · right
      rfl
    · left
      rfl
    · exfalso
      have h2' : (canMakePix s a).can = true := by simpa using h2
      rw [hcf] at h2'
      cases h2'
  · intro s a hpa
    unfold creditAmount
    rw [if_neg (not_le.mpr hpa)]

/-- Concrete instantiation: a debit of 10 then a credit of 5 on the demo
wallet keeps the invariant. -/
theorem wallet_invariants_preserved_witness :
    ValidWallet (applyWalletOps demoSub [WalletOp.debitOp 10, WalletOp.creditOp 5]) :=
  (wallet_invariants_preserved demoSub [WalletOp.debitOp 10, WalletOp.creditOp 5]
    (by norm_num [ValidWallet, demoSub])
    (by
      intro op hop
      rcases List.mem_cons.mp hop with rfl | hop'
      · norm_num [walletOpAmount]
      · rcases List.mem_singleton.mp hop' with rfl
        norm_num [walletOpAmount])).1

/-! ## Concurrency: two concurrent /process calls (Scenario E)

Node.js runs each /process handler (part_000 lines 176-317) as a
cooperatively scheduled task that yields only at its await points. With a
succeeding gateway, the handler's effects on the shared wallet row fall
into two atomic segments: segment 1 awaits the SubAccount load and
synchronously runs canMakePix on the loaded document; segment 2, resumed
after the awaited gateway submit, runs debitAmount on that same in-memory
document — its canMakePix re-check therefore reads the request's snapshot,
not the store — and saves, overwriting the stored row with the document's
fields. Two such tasks of amount 40.00 against one stored wallet of
balance 50.00 are driven by an arbitrary interleaving schedule. -/

/-- How one concurrent /process task ended. -/
inductive TaskOutcome where
  | completedTx
  | denied
  | recheckFailed
deriving Repr, DecidableEq

/-- Progress of one concurrent /process task: not yet loaded, loaded a
wallet snapshot and passed the check, or finished. -/
inductive TaskState where
  | start
  | ready (snap : SubAccount)
  | done (outcome : TaskOutcome)
deriving Repr, DecidableEq

/-- Shared stored wallet row plus the two request tasks. -/
structure ConcState where
  store : SubAccount
  t0 : TaskState
  t1 : TaskState
deriving Repr, DecidableEq

/-- The payout amount both concurrent calls request in Scenario E. -/
def concAmount : ℚ := 40

/-- One atomic segment of a /process task against the stored row: load
and check, or re-check on the stale snapshot, debit it and save. -/
def taskStep (store : SubAccount) (t : TaskState) : SubAccount × TaskState :=
  match t with
  | .start =>
    if (canMakePix store concAmount).can then (store, .ready store)
    else (store, .done .denied)
  | .ready snap =>
    match debitAmount snap concAmount with
    | .ok snap' => (snap', .done .completedTx)
    | .error _ => (store, .done .recheckFailed)
  | .done o => (store, .done o)

/-- Advance the scheduled task by one atomic segment. -/
def concStep (c : ConcState) : Bool → ConcState
  | false =>
    ⟨(taskStep c.store c.t0).1, (taskStep c.store c.t0).2, c.t1⟩
  | true =>
    ⟨(taskStep c.store c.t1).1, c.t0, (taskStep c.store c.t1).2⟩

/-- Run a whole interleaving schedule. -/
def concRun (c : ConcState) : List Bool → ConcState
  | [] => c
  | i :: sched => concRun (concStep c i) sched

/-- Scenario E initial state: stored balance 50.00 with no other limit
binding, both requests not yet started. -/
def scenarioE : ConcState := ⟨demoSub, .start, .start⟩

/-- The demo wallet admits the 40.00 payout. -/
lemma canMakePix_demo_concAmount : (canMakePix demoSub concAmount).can = true := by
  norm_num [canMakePix, demoSub, concAmount]

/-- After one 40.00 debit the wallet denies another 40.00 payout. -/
lemma canMakePix_debited_concAmount :
    (canMakePix (debited demoSub concAmount) concAmount).can = false := by
  norm_num [canMakePix, debited, demoSub, concAmount]

/-- Debiting the demo wallet by 40.00 succeeds. -/
lemma debitAmount_demo_concAmount :
    debitAmount demoSub concAmount = .ok (debited demoSub concAmount) :=
  debitAmount_of_can demoSub concAmount (by norm_num [concAmount])
    canMakePix_demo_concAmount

/-- The check-load, check-load, debit, debit interleaving: both tasks pass
the policy check on the balance-50 snapshot, then both debit and save. -/
lemma concRunE_eq :
    concRun scenarioE [false, true, false, true] =
      ⟨debited demoSub concAmount, .done .completedTx, .done .completedTx⟩ := by
  have e1 : concStep scenarioE false = ⟨demoSub, .ready demoSub, .start⟩ := by
    simp [concStep, taskStep, scenarioE, canMakePix_demo_concAmount]
  have e2 : concStep ⟨demoSub, .ready demoSub, .start⟩ true =
      ⟨demoSub, .ready demoSub, .ready demoSub⟩ := by
    simp [concStep, taskStep, canMakePix_demo_concAmount]
  have e3 : concStep ⟨demoSub, .ready demoSub, .ready demoSub⟩ false =
      ⟨debited demoSub concAmount, .done .completedTx, .ready demoSub⟩ := by
    simp [concStep, taskStep, debitAmount_demo_concAmount]
  have e4 : concStep ⟨debited demoSub concAmount, .done .completedTx,
      .ready demoSub⟩ true =
      ⟨debited demoSub concAmount, .done .completedTx, .done .completedTx⟩ := by
    simp [concStep, taskStep, debitAmount_demo_concAmount]
  simp only [concRun]
  rw [e1, e2, e3, e4]

/-- C8 counterexample: under the interleaving that runs both checks before
either debit, both concurrent 40.00 calls complete — not exactly one — and
the stored balance ends at 10.00 while 80.00 worth of transactions
completed. -/
theorem both_concurrent_initiates_complete :
    (concRun scenarioE [false, true, false, true]).t0 =
      .done TaskOutcome.completedTx ∧
    (concRun scenarioE [false, true, false, true]).t1 =
      .done TaskOutcome.completedTx ∧
    (concRun scenarioE [false, true, false, true]).store.balance = 10 := by
  rw [concRunE_eq]
  refine ⟨rfl, rfl, ?_⟩
  norm_num [debited, demoSub, concAmount]

/-- Interleaving invariant: the stored row holds either the initial or the
once-debited wallet, and any task that passed the check holds the initial
snapshot (a task loading the debited row is denied by the check). -/
def ConcInv (c : ConcState) : Prop :=
  (c.store = demoSub ∨ c.store = debited demoSub concAmount) ∧
  (∀ snap, c.t0 = .ready snap → snap = demoSub) ∧
  (∀ snap, c.t1 = .ready snap → snap = demoSub)

/-- One interleaving segment preserves the invariant. -/
lemma concStep_inv (c : ConcState) (i : Bool) (h : ConcInv c) :
    ConcInv (concStep c i) := by
  obtain ⟨hs, h0, h1⟩ := h
  cases i
  case false =>
    dsimp only [concStep]
    cases ht : c.t0 with
    | start =>
      dsimp only [taskStep]
      rcases hs with hs | hs
      · rw [hs, if_pos canMakePix_demo_concAmount]
        refine ⟨Or.inl rfl, ?_, h1⟩
        intro snap hsnap
        cases hsnap
        rfl
      · rw [hs]
        rw [if_neg (by rw [canMakePix_debited_concAmount]; exact Bool.false_ne_true)]
        exact ⟨Or.inr rfl, (by intro snap hsnap; cases hsnap), h1⟩
    | ready snap =>
      have hsnap : snap = demoSub := h0 snap ht
      subst hsnap
      dsimp only [taskStep]
      rw [debitAmount_demo_concAmount]
      exact ⟨Or.inr rfl, (by intro snap hsnap; cases hsnap), h1⟩
    | done o =>
      dsimp only [taskStep]
      exact ⟨hs, (by intro snap hsnap; cases hsnap), h1⟩
  case true =>
    dsimp only [concStep]
    cases ht : c.t1 with
    | start =>
      dsimp only [taskStep]
      rcases hs with hs | hs
      · rw [hs, if_pos canMakePix_demo_concAmount]
        refine ⟨Or.inl rfl, h0, ?_⟩
        intro snap hsnap
        cases hsnap
        rfl
      · rw [hs]
        rw [if_neg (by rw [canMakePix_debited_concAmount]; exact Bool.false_ne_true)]
        exact ⟨Or.inr rfl, h0, by intro snap hsnap; cases hsnap⟩
    | ready snap =>
      have hsnap : snap = demoSub := h1 snap ht
      subst hsnap
      dsimp only [taskStep]
      rw [debitAmount_demo_concAmount]
      exact ⟨Or.inr rfl, h0, by intro snap hsnap; cases hsnap⟩
    | done o =>
      dsimp only [taskStep]
      exact ⟨hs, h0, by intro snap hsnap; cases hsnap⟩

/-- Every interleaving preserves the invariant. -/
lemma concRun_inv (sched : List Bool) (c : ConcState) (h : ConcInv c) :
    ConcInv (concRun c sched) := by
  induction sched generalizing c with
  | nil => exact h
  | cons i sched ih => exact ih (concStep c i) (concStep_inv c i h)

/-- C8 (amended): the check-then-debit sequence is not atomic: the debit
re-check runs on the request's stale snapshot, so an interleaving exists
in which both concurrent 40.00 calls complete and debit; still, under
every interleaving of this scenario the stored balance stays nonnegative
(it is always 50.00 or 10.00). -/
theorem concurrent_initiates_stale_recheck_balance_nonneg :
    (∀ sched : List Bool, 0 ≤ (concRun scenarioE sched).store.balance) ∧
    (∃ sched : List Bool,
      (concRun scenarioE sched).t0 = .done TaskOutcome.completedTx ∧
      (concRun scenarioE sched).t1 = .done TaskOutcome.completedTx) := by
  constructor
  · intro sched
    have hinv : ConcInv scenarioE := by
      refine ⟨Or.inl rfl, ?_, ?_⟩ <;> intro snap hsnap <;> cases hsnap
    have h := (concRun_inv sched scenarioE hinv).1
    rcases h with h | h <;> rw [h] <;> norm_num [demoSub, debited, concAmount]
  · refine ⟨[false, true, false, true], ?_, ?_⟩ <;> rw [concRunE_eq]

end Troco
